import Mathlib

/-!
Shallow embedding of the dependency-graph visualizer core
(`DependencyGraphVisualizer` in `depgraph3.py`): substring filtering,
bounded breadth-first graph construction, cycle-safe ASCII tree rendering,
and D2 diagram serialization, together with theorems settling the spec
claims about them.
-/

namespace DepViz

/-- A dependency record as parsed from a POM file or taken from the
test fixture: the dictionary with keys groupId, artifactId, version
built in `_parse_dependencies_from_pom` / `_get_test_dependencies`. -/
structure Dep where
  groupId : String
  artifactId : String
  version : String
deriving DecidableEq

/-- A package coordinate string, written group:artifact in the code. -/
abbrev Coordinate := String

/-- The graph-node key derived from a dependency record:
the Python expression f-string groupId:artifactId. -/
def depKey (dep : Dep) : Coordinate :=
  dep.groupId ++ ":" ++ dep.artifactId

/-- The composite string built in `_apply_filter`:
groupId:artifactId:version. -/
def depComposite (dep : Dep) : String :=
  dep.groupId ++ ":" ++ dep.artifactId ++ ":" ++ dep.version

/-- The relevant part of the visualizer configuration
(`_convert_args_to_config`): the analyzed package, the maximum depth
and the optional filter substring. -/
structure Config where
  package_name : Coordinate
  max_depth : Nat
  filter_substring : Option String

/-- A dependency source: given group id and artifact id, either the
ordered list of direct dependency records, or a failure.  It abstracts
both branches of `get_package_dependencies`: the remote branch
(`_download_pom_file` followed by `_parse_dependencies_from_pom`, each of
which may raise) and the test branch (`_get_test_dependencies`, which is
total, i.e. a source that never returns an error). -/
def Source := String → String → Except String (List Dep)

/-- Does the pattern occur at the very front of the character list?
Models the anchored comparison underlying Python substring search. -/
def matchHere : List Char → List Char → Bool
  | [], _ => true
  | _ :: _, [] => false
  | a :: as, b :: bs => a == b && matchHere as bs

/-- Does the pattern occur contiguously anywhere in the character list?
Models the Python expression pattern in text on strings. -/
def occursIn (pat : List Char) : List Char → Bool
  | [] => pat.isEmpty
  | b :: bs => matchHere pat (b :: bs) || occursIn pat bs

/-- Python substring containment: pat in s. -/
def strOccursIn (pat s : String) : Bool :=
  occursIn pat.toList s.toList

/-- Python str.split with a one-character separator, over the character
list: splitting never drops empty pieces, and a string without the
separator yields the one-element list of itself. -/
def splitChars (sep : Char) (acc : List Char) : List Char → List (List Char)
  | [] => [acc.reverse]
  | c :: cs =>
    if c = sep then acc.reverse :: splitChars sep [] cs
    else splitChars sep (c :: acc) cs

/-- Python s.split(sep) for a one-character separator. -/
def pySplit (sep : Char) (s : String) : List String :=
  (splitChars sep [] s.toList).map String.mk

/-- Python s.lower(), modelled on the ASCII range by mapping
Char.toLower over the characters. -/
def pyLower (s : String) : String :=
  String.mk (s.toList.map Char.toLower)

/-- The body of the accumulation loop of `_apply_filter`: walk the
dependency list, appending to the result every record whose lower-cased
composite string contains the (already lower-cased) filter string. -/
def filterLoop (filter_str : String) : List Dep → List Dep
  | [] => []
  | dep :: rest =>
    if strOccursIn filter_str (pyLower (depComposite dep)) then
      dep :: filterLoop filter_str rest
    else
      filterLoop filter_str rest

/-- `_apply_filter`: identity when the configured substring is absent or
empty (Python falsy test), otherwise the accumulation loop with the
lower-cased substring. -/
def _apply_filter (cfg : Config) (dependencies : List Dep) : List Dep :=
  match cfg.filter_substring with
  | none => dependencies
  | some s =>
    if s = "" then dependencies
    else filterLoop (pyLower s) dependencies

/-- `get_package_dependencies`: empty at or beyond the depth bound, empty
for a coordinate that does not split into exactly two parts, the source
result on success, and empty when the source fails (the caught exception
branch that prints and returns an empty list). -/
def get_package_dependencies (cfg : Config) (src : Source)
    (package : Coordinate) (current_depth : Nat) : List Dep :=
  if cfg.max_depth ≤ current_depth then []
  else
    match pySplit ':' package with
    | [group_id, artifact_id] =>
      match src group_id artifact_id with
      | Except.ok dependencies => dependencies
      | Except.error _ => []
    | _ => []

/-- The dependency graph: a Python dict from coordinate to the stored
(filtered) dependency list, modelled as an association list in insertion
order, which is the iteration order of a Python dict. -/
abbrev Graph := List (Coordinate × List Dep)

/-- Python dict assignment d[k] = v: overwrite in place when the key is
present (keeping its position), append a fresh entry otherwise. -/
def dictInsert (g : Graph) (k : Coordinate) (v : List Dep) : Graph :=
  if g.any (fun p => p.1 = k) then
    g.map (fun p => if p.1 = k then (k, v) else p)
  else
    g ++ [(k, v)]

/-- Python dict lookup d[k] (with d.get semantics for a possibly absent
key): the value of the first entry with the key. -/
def dictLookup (g : Graph) (k : Coordinate) : Option (List Dep) :=
  match g with
  | [] => none
  | p :: rest => if p.1 = k then some p.2 else dictLookup rest k

/-- Termination measure for the BFS loop: how many queue entries sit at
each depth, depths clamped to the bound.  A popped entry is replaced only
by entries of strictly larger depth, so the counts decrease in the
lexicographic order that weighs smaller depths more. -/
structure QueueMeasure (W : Nat) where
  counts : Fin (W + 1) → Nat

/-- The depth counts of a queue, depths clamped at the bound W. -/
def queueCounts (W : Nat) (q : List (Coordinate × Nat)) : QueueMeasure W :=
  ⟨fun i => (q.filter (fun e => min e.2 W = i.val)).length⟩

/-- Lexicographic comparison of queue measures, smaller depths first. -/
def queueRel (W : Nat) (a b : QueueMeasure W) : Prop :=
  Pi.Lex (· < ·) (fun {_} => (· < ·)) a.counts b.counts

instance (W : Nat) : WellFoundedRelation (QueueMeasure W) where
  rel := queueRel W
  wf := InvImage.wf QueueMeasure.counts
    (Pi.Lex.wellFounded (· < ·) fun _ => Nat.lt_wfRel.wf)

/-- Popping the front entry shrinks the queue measure. -/
theorem queueRel_pop (W : Nat) (c : Coordinate) (d : Nat)
    (q : List (Coordinate × Nat)) :
    queueRel W (queueCounts W q) (queueCounts W ((c, d) :: q)) := by
  refine ⟨⟨min d W, by omega⟩, fun j hj => ?_, ?_⟩
  · simp only [queueCounts, List.filter_cons]
    have : ¬ (min d W = j.val) := by
      intro h
      exact absurd hj (by simp [Fin.lt_def, h])
    simp [this]
  · simp only [queueCounts, List.filter_cons]
    simp

/-- Replacing the front entry of depth d by any entries of depth d + 1,
below the bound, shrinks the queue measure. -/
theorem queueRel_push (W : Nat) (c : Coordinate) (d : Nat)
    (q ch : List (Coordinate × Nat))
    (hch : ∀ e ∈ ch, e.2 = d + 1) (hd : d + 1 < W) :
    queueRel W (queueCounts W (q ++ ch)) (queueCounts W ((c, d) :: q)) := by
  have hdW : min d W = d := by omega
  have hchW : ∀ e ∈ ch, min e.2 W = d + 1 := by
    intro e he; have := hch e he; omega
  have hcnt : ∀ k : Nat, k ≠ d + 1 →
      (ch.filter (fun e => min e.2 W = k)).length = 0 := by
    intro k hk
    rw [List.length_eq_zero]
    rw [List.filter_eq_nil_iff]
    intro e he
    have h3 := hchW e he
    simp only [decide_eq_true_eq]
    omega
  refine ⟨⟨d, by omega⟩, fun j hj => ?_, ?_⟩
  · have hjd : j.val < d := hj
    simp only [queueCounts, List.filter_cons, List.filter_append,
      List.length_append]
    have h1 : ¬ (min d W = j.val) := by omega
    have h2 : (ch.filter (fun e => min e.2 W = j.val)).length = 0 := by
      apply hcnt; omega
    simp [h1, h2]
  · simp only [queueCounts, List.filter_cons, List.filter_append,
      List.length_append]
    have h2 : (ch.filter (fun e => min e.2 W = d)).length = 0 := by
      apply hcnt; omega
    simp [hdW, h2]

/-- The body of the while loop of `build_dependency_graph`.  State: the
FIFO queue of (coordinate, depth) pairs, the visited set, the graph under
construction, and the log of analyzed coordinates (the per-package
analysis line printed just before the dependencies are fetched).  A
popped coordinate already visited is discarded; otherwise it is marked
visited, logged, its filtered dependency list is stored, and, while the
next level is below the bound, its not-yet-visited children are appended
to the queue. -/
def buildLoop (cfg : Config) (src : Source) :
    List (Coordinate × Nat) → List Coordinate → Graph → List Coordinate →
    Graph × List Coordinate
  | [], _visited, graph, log => (graph, log)
  | (current_package, depth) :: queue, visited, graph, log =>
    if current_package ∈ visited then
      buildLoop cfg src queue visited graph log
    else
      if h : depth + 1 < cfg.max_depth then
        buildLoop cfg src
          (queue ++
            ((_apply_filter cfg
                (get_package_dependencies cfg src current_package depth)).filter
              (fun dep => decide (depKey dep ∉ current_package :: visited))).map
              (fun dep => (depKey dep, depth + 1)))
          (current_package :: visited)
          (dictInsert graph current_package
            (_apply_filter cfg
              (get_package_dependencies cfg src current_package depth)))
          (log ++ [current_package])
      else
        buildLoop cfg src queue
          (current_package :: visited)
          (dictInsert graph current_package
            (_apply_filter cfg
              (get_package_dependencies cfg src current_package depth)))
          (log ++ [current_package])
termination_by q _v _g _l => queueCounts cfg.max_depth q
decreasing_by
  · exact queueRel_pop _ _ _ _
  · refine queueRel_push _ current_package depth _ _ ?_ h
    intro e he
    simp only [List.mem_map] at he
    obtain ⟨dep, _, rfl⟩ := he
    rfl
  · exact queueRel_pop _ _ _ _

/-- `build_dependency_graph`: reset the graph and visited set, seed the
queue with the configured root package at depth 0, and run the loop.
Returns the graph together with the analysis log. -/
def build_dependency_graph (cfg : Config) (src : Source) :
    Graph × List Coordinate :=
  buildLoop cfg src [(cfg.package_name, 0)] [] [] []

/-- Unfolding: an empty queue ends the loop. -/
theorem buildLoop_nil (cfg : Config) (src : Source) (v : List Coordinate)
    (g : Graph) (l : List Coordinate) :
    buildLoop cfg src [] v g l = (g, l) := by
  simp [buildLoop]

/-- Unfolding: an already visited front coordinate is discarded. -/
theorem buildLoop_visited (cfg : Config) (src : Source) (c : Coordinate)
    (d : Nat) (q : List (Coordinate × Nat)) (v : List Coordinate) (g : Graph)
    (l : List Coordinate) (hv : c ∈ v) :
    buildLoop cfg src ((c, d) :: q) v g l = buildLoop cfg src q v g l := by
  rw [buildLoop]
  simp [hv]

/-- Unfolding: an unvisited front coordinate below the expansion bound is
expanded and its unvisited children are enqueued at the next depth. -/
theorem buildLoop_expand_push (cfg : Config) (src : Source) (c : Coordinate)
    (d : Nat) (q : List (Coordinate × Nat)) (v : List Coordinate) (g : Graph)
    (l : List Coordinate) (hv : c ∉ v) (hd : d + 1 < cfg.max_depth) :
    buildLoop cfg src ((c, d) :: q) v g l =
      buildLoop cfg src
        (q ++
          ((_apply_filter cfg (get_package_dependencies cfg src c d)).filter
            (fun dep => decide (depKey dep ∉ c :: v))).map
            (fun dep => (depKey dep, d + 1)))
        (c :: v)
        (dictInsert g c
          (_apply_filter cfg (get_package_dependencies cfg src c d)))
        (l ++ [c]) := by
  rw [buildLoop]
  simp [hv, hd]

/-- Unfolding: an unvisited front coordinate at the last allowed depth is
still expanded and stored, but nothing is enqueued. -/
theorem buildLoop_expand_stop (cfg : Config) (src : Source) (c : Coordinate)
    (d : Nat) (q : List (Coordinate × Nat)) (v : List Coordinate) (g : Graph)
    (l : List Coordinate) (hv : c ∉ v) (hd : ¬ d + 1 < cfg.max_depth) :
    buildLoop cfg src ((c, d) :: q) v g l =
      buildLoop cfg src q
        (c :: v)
        (dictInsert g c
          (_apply_filter cfg (get_package_dependencies cfg src c d)))
        (l ++ [c]) := by
  rw [buildLoop]
  simp [hv, hd]

/-- Inserting a key absent from the graph appends a fresh entry. -/
theorem dictInsert_of_not_mem (g : Graph) (k : Coordinate) (v : List Dep)
    (h : k ∉ g.map Prod.fst) : dictInsert g k v = g ++ [(k, v)] := by
  rw [dictInsert, if_neg]
  simp only [List.any_eq_true, decide_eq_true_eq, not_exists, not_and]
  intro p hp
  intro hpk
  exact h (List.mem_map.mpr ⟨p, hp, hpk⟩)

/-- Unfolding: lookup in the empty dictionary. -/
theorem dictLookup_nil (k : Coordinate) : dictLookup [] k = none := rfl

/-- Unfolding: lookup checks the front entry first. -/
theorem dictLookup_cons (p : Coordinate × List Dep) (rest : Graph)
    (k : Coordinate) :
    dictLookup (p :: rest) k =
      if p.1 = k then some p.2 else dictLookup rest k := rfl

/-- Overwriting the entries of one key leaves the lookup of a different
key unchanged. -/
theorem dictLookup_overwrite (g : Graph) (k k' : Coordinate)
    (v : List Dep) (h : k ≠ k') :
    dictLookup (g.map (fun p => if p.1 = k' then (k', v) else p)) k =
      dictLookup g k := by
  induction g with
  | nil => rfl
  | cons p rest ih =>
    have h1 : ¬ (k' = k) := fun hkk => h hkk.symm
    by_cases hp : p.1 = k'
    · simp only [List.map_cons, if_pos hp, dictLookup_cons, ih]
      rw [if_neg h1, if_neg (by rw [hp]; exact h1)]
    · simp only [List.map_cons, if_neg hp, dictLookup_cons, ih]

/-- Appending an entry for a different key leaves a lookup unchanged. -/
theorem dictLookup_append_ne (g : Graph) (k k' : Coordinate)
    (v : List Dep) (h : k ≠ k') :
    dictLookup (g ++ [(k', v)]) k = dictLookup g k := by
  induction g with
  | nil =>
    simp only [List.nil_append, dictLookup_cons, dictLookup_nil]
    rw [if_neg (fun hkk => h hkk.symm)]
  | cons p rest ih =>
    simp only [List.cons_append, List.append_eq, dictLookup_cons]
    rw [ih]

/-- Looking up a key distinct from an inserted one is unchanged. -/
theorem dictLookup_dictInsert_ne (g : Graph) (k k' : Coordinate)
    (v : List Dep) (h : k ≠ k') :
    dictLookup (dictInsert g k' v) k = dictLookup g k := by
  rw [dictInsert]
  by_cases hc : g.any (fun p => p.1 = k') = true
  · rw [if_pos hc]
    exact dictLookup_overwrite g k k' v h
  · rw [if_neg hc]
    exact dictLookup_append_ne g k k' v h

/-- Looking up a freshly appended key finds its value. -/
theorem dictLookup_append_self (g : Graph) (k : Coordinate) (v : List Dep)
    (h : k ∉ g.map Prod.fst) : dictLookup (g ++ [(k, v)]) k = some v := by
  induction g with
  | nil => simp [dictLookup_cons]
  | cons p rest ih =>
    simp only [List.map_cons, List.mem_cons, not_or] at h
    simp only [List.cons_append, List.append_eq, dictLookup_cons]
    rw [if_neg (fun hpk => h.1 hpk.symm), ih h.2]

/-- The loop only ever adds graph entries, in the order of the analysis
log: the new keys are exactly the newly logged coordinates, they are
pairwise distinct, and none of them was visited on entry. -/
theorem buildLoop_delta (cfg : Config) (src : Source)
    (q : List (Coordinate × Nat)) (v : List Coordinate) (g : Graph)
    (l : List Coordinate) (hg : ∀ p ∈ g, p.1 ∈ v) :
    ∃ Δ, (buildLoop cfg src q v g l).1.map Prod.fst = g.map Prod.fst ++ Δ ∧
      (buildLoop cfg src q v g l).2 = l ++ Δ ∧
      Δ.Nodup ∧ ∀ k ∈ Δ, k ∉ v := by
  induction q, v, g, l using buildLoop.induct cfg src with
  | case1 v g l =>
    exact ⟨[], by simp [buildLoop_nil], by simp [buildLoop_nil],
      List.nodup_nil, by simp⟩
  | case2 c d q v g l hv ih =>
    rw [buildLoop_visited cfg src c d q v g l hv]
    exact ih hg
  | case3 c d q v g l hv hd ih =>
    rw [buildLoop_expand_push cfg src c d q v g l hv hd]
    have hck : c ∉ g.map Prod.fst := by
      intro hc
      obtain ⟨p, hp, hpc⟩ := List.mem_map.mp hc
      exact hv (hpc ▸ hg p hp)
    have hins := dictInsert_of_not_mem g c
      (_apply_filter cfg (get_package_dependencies cfg src c d)) hck
    have hg' : ∀ p ∈ dictInsert g c
        (_apply_filter cfg (get_package_dependencies cfg src c d)),
        p.1 ∈ c :: v := by
      rw [hins]
      intro p hp
      rcases List.mem_append.mp hp with h1 | h1
      · exact List.mem_cons_of_mem _ (hg p h1)
      · rw [List.mem_singleton.mp h1]
        exact List.mem_cons_self c v
    obtain ⟨Δ, h1, h2, h3, h4⟩ := ih hg'
    refine ⟨c :: Δ, ?_, ?_, ?_, ?_⟩
    · rw [h1, hins]
      simp
    · rw [h2]
      simp
    · exact List.nodup_cons.mpr
        ⟨fun hcΔ => (h4 c hcΔ) (List.mem_cons_self c v), h3⟩
    · intro k hk
      rcases List.mem_cons.mp hk with rfl | hkΔ
      · exact hv
      · exact fun hkv => h4 k hkΔ (List.mem_cons_of_mem _ hkv)
  | case4 c d q v g l hv hd ih =>
    rw [buildLoop_expand_stop cfg src c d q v g l hv hd]
    have hck : c ∉ g.map Prod.fst := by
      intro hc
      obtain ⟨p, hp, hpc⟩ := List.mem_map.mp hc
      exact hv (hpc ▸ hg p hp)
    have hins := dictInsert_of_not_mem g c
      (_apply_filter cfg (get_package_dependencies cfg src c d)) hck
    have hg' : ∀ p ∈ dictInsert g c
        (_apply_filter cfg (get_package_dependencies cfg src c d)),
        p.1 ∈ c :: v := by
      rw [hins]
      intro p hp
      rcases List.mem_append.mp hp with h1 | h1
      · exact List.mem_cons_of_mem _ (hg p h1)
      · rw [List.mem_singleton.mp h1]
        exact List.mem_cons_self c v
    obtain ⟨Δ, h1, h2, h3, h4⟩ := ih hg'
    refine ⟨c :: Δ, ?_, ?_, ?_, ?_⟩
    · rw [h1, hins]
      simp
    · rw [h2]
      simp
    · exact List.nodup_cons.mpr
        ⟨fun hcΔ => (h4 c hcΔ) (List.mem_cons_self c v), h3⟩
    · intro k hk
      rcases List.mem_cons.mp hk with rfl | hkΔ
      · exact hv
      · exact fun hkv => h4 k hkΔ (List.mem_cons_of_mem _ hkv)

/-- Once a coordinate is visited, the rest of the loop never changes its
graph entry: every later insertion is for an unvisited key. -/
theorem buildLoop_lookup_visited (cfg : Config) (src : Source)
    (q : List (Coordinate × Nat)) (v : List Coordinate) (g : Graph)
    (l : List Coordinate) (k : Coordinate) (hk : k ∈ v)
    (hg : ∀ p ∈ g, p.1 ∈ v) :
    dictLookup (buildLoop cfg src q v g l).1 k = dictLookup g k := by
  induction q, v, g, l using buildLoop.induct cfg src with
  | case1 v g l => rw [buildLoop_nil]
  | case2 c d q v g l hv ih =>
    rw [buildLoop_visited cfg src c d q v g l hv]
    exact ih hk hg
  | case3 c d q v g l hv hd ih =>
    rw [buildLoop_expand_push cfg src c d q v g l hv hd]
    have hg' : ∀ p ∈ dictInsert g c
        (_apply_filter cfg (get_package_dependencies cfg src c d)),
        p.1 ∈ c :: v := by
      rw [dictInsert_of_not_mem g c _ (fun hc => by
        obtain ⟨p, hp, hpc⟩ := List.mem_map.mp hc
        exact hv (hpc ▸ hg p hp))]
      intro p hp
      rcases List.mem_append.mp hp with h1 | h1
      · exact List.mem_cons_of_mem _ (hg p h1)
      · rw [List.mem_singleton.mp h1]
        exact List.mem_cons_self c v
    rw [ih (List.mem_cons_of_mem _ hk) hg']
    exact dictLookup_dictInsert_ne g k c _ (fun hkc => hv (hkc ▸ hk))
  | case4 c d q v g l hv hd ih =>
    rw [buildLoop_expand_stop cfg src c d q v g l hv hd]
    have hg' : ∀ p ∈ dictInsert g c
        (_apply_filter cfg (get_package_dependencies cfg src c d)),
        p.1 ∈ c :: v := by
      rw [dictInsert_of_not_mem g c _ (fun hc => by
        obtain ⟨p, hp, hpc⟩ := List.mem_map.mp hc
        exact hv (hpc ▸ hg p hp))]
      intro p hp
      rcases List.mem_append.mp hp with h1 | h1
      · exact List.mem_cons_of_mem _ (hg p h1)
      · rw [List.mem_singleton.mp h1]
        exact List.mem_cons_self c v
    rw [ih (List.mem_cons_of_mem _ hk) hg']
    exact dictLookup_dictInsert_ne g k c _ (fun hkc => hv (hkc ▸ hk))

/-- The Python expression of two spaces repeated level times. -/
def indentStr (level : Nat) : String :=
  String.mk (List.replicate (2 * level) ' ')

mutual

/-- `_print_tree_node`: a coordinate already on the current root-to-node
path is printed as a terminal cyclic-dependency marker; otherwise its own
line is printed (with a connector glyph when below the root) and its
stored children are rendered.  The path set handed to the children is the
per-call copy made by visited.copy() in the code, extended with the
current package; a package absent from the graph contributes no
children.  Output is modelled as the list of printed lines. -/
def printTreeNode (g : Graph) (W : Nat) (package : Coordinate)
    (level : Nat) (visited : List Coordinate) : List String :=
  if package ∈ visited then
    [indentStr level ++ "└── " ++ package ++ " (циклическая зависимость)"]
  else
    (indentStr level ++ (if 0 < level then "└── " else "") ++ package) ::
      printTreeChildren g W level (package :: visited)
        ((dictLookup g package).getD [])
termination_by (2 * (W - level) + 1, 0)

/-- The body of the for-loop over a node's stored dependency list:
is_last is the test i == len(dependencies) - 1, i.e. an empty tail.
Below the depth bound each child is rendered recursively; at the bound
it is printed as a depth-limited leaf. -/
def printTreeChildren (g : Graph) (W : Nat) (level : Nat)
    (visited : List Coordinate) : List Dep → List String
  | [] => []
  | dep :: rest =>
    (if _h : level + 1 < W then
      printTreeNode g W (depKey dep) (level + 1) visited
    else
      [indentStr (level + 1) ++ (if rest.isEmpty then "└── " else "├── ") ++
        depKey dep ++ " (глубина ограничена)"]) ++
    printTreeChildren g W level visited rest
termination_by deps => (2 * (W - level), deps.length)

end

/-- `print_ascii_tree` body once the graph is non-empty: render the tree
from the configured root with an empty path set. -/
def print_ascii_tree (cfg : Config) (g : Graph) : List String :=
  printTreeNode g cfg.max_depth cfg.package_name 0 []

/-- The fixed header of `generate_d2_diagram`. -/
def d2Header : String :=
  "# Граф зависимостей Maven\n\n" ++ "direction: right\n" ++
    "classes: \x7b\n  style: \x7b\n    stroke: green\n    fill: lightgreen\n  \x7d\n\x7d\n\n"

/-- One node declaration line of the D2 diagram. -/
def nodeLine (package : Coordinate) : String :=
  "\"" ++ package ++ "\"\n"

/-- One edge statement line of the D2 diagram. -/
def edgeLine (package : Coordinate) (dep : Dep) : String :=
  "\"" ++ package ++ "\" -> \"" ++ depKey dep ++ "\"\n"

/-- `generate_d2_diagram`: the header, then one declaration line per
graph key in the graph's own iteration order, then the edge statements
per node in stored list order. -/
def generate_d2_diagram (g : Graph) : String :=
  d2Header ++
    String.join (g.map (fun p => nodeLine p.1)) ++
    String.join (g.map (fun p => String.join (p.2.map (edgeLine p.1))))

/-- Unfolding: a path-repeated coordinate is a terminal cyclic marker. -/
theorem printTreeNode_mem (g : Graph) (W : Nat) (package : Coordinate)
    (level : Nat) (visited : List Coordinate) (hv : package ∈ visited) :
    printTreeNode g W package level visited =
      [indentStr level ++ "└── " ++ package ++ " (циклическая зависимость)"] := by
  rw [printTreeNode, if_pos hv]

/-- Unfolding: a fresh coordinate prints its own line and renders its
stored children against the extended path copy. -/
theorem printTreeNode_not_mem (g : Graph) (W : Nat) (package : Coordinate)
    (level : Nat) (visited : List Coordinate) (hv : package ∉ visited) :
    printTreeNode g W package level visited =
      (indentStr level ++ (if 0 < level then "└── " else "") ++ package) ::
        printTreeChildren g W level (package :: visited)
          ((dictLookup g package).getD []) := by
  rw [printTreeNode, if_neg hv]

/-- Unfolding: no children, no lines. -/
theorem printTreeChildren_nil (g : Graph) (W : Nat) (level : Nat)
    (visited : List Coordinate) :
    printTreeChildren g W level visited [] = [] := by
  rw [printTreeChildren]

/-- Unfolding: below the depth bound a child is rendered recursively. -/
theorem printTreeChildren_cons_rec (g : Graph) (W : Nat) (level : Nat)
    (visited : List Coordinate) (dep : Dep) (rest : List Dep)
    (h : level + 1 < W) :
    printTreeChildren g W level visited (dep :: rest) =
      printTreeNode g W (depKey dep) (level + 1) visited ++
        printTreeChildren g W level visited rest := by
  rw [printTreeChildren, dif_pos h]

/-- Unfolding: at the depth bound a child becomes a depth-limited leaf,
with the glyph chosen by the is_last test. -/
theorem printTreeChildren_cons_limit (g : Graph) (W : Nat) (level : Nat)
    (visited : List Coordinate) (dep : Dep) (rest : List Dep)
    (h : ¬ level + 1 < W) :
    printTreeChildren g W level visited (dep :: rest) =
      [indentStr (level + 1) ++ (if rest.isEmpty then "└── " else "├── ") ++
        depKey dep ++ " (глубина ограничена)"] ++
        printTreeChildren g W level visited rest := by
  rw [printTreeChildren, dif_neg h]

/-- Joining a non-empty list of strings prepends the head. -/
theorem String_join_cons (s : String) (l : List String) :
    String.join (s :: l) = s ++ String.join l := by
  cases s with
  | mk cs =>
    rw [String.join_eq, String.join_eq]
    show String.mk ((List.map String.data (String.mk cs :: l)).flatten) =
      String.mk (cs ++ (l.map String.data).flatten)
    rw [List.map_cons, List.flatten_cons]

/-- Joining a concatenation of string lists splits into two joins. -/
theorem String_join_append (a b : List String) :
    String.join (a ++ b) = String.join a ++ String.join b := by
  induction a with
  | nil =>
    show String.join b = String.join [] ++ String.join b
    rw [String.join_eq ([] : List String)]
    cases hb : String.join b with
    | mk cs =>
      show String.mk cs = String.mk (([] : List Char) ++ cs)
      rw [List.nil_append]
  | cons s rest ih =>
    rw [List.cons_append, String_join_cons, String_join_cons, ih,
      String.append_assoc]

/-- Joining per-node joined edge lines is joining the flat list of edge
lines. -/
theorem join_edge_lines (g : Graph) :
    String.join (g.map (fun p => String.join (p.2.map (edgeLine p.1)))) =
      String.join (g.flatMap (fun p => p.2.map (edgeLine p.1))) := by
  induction g with
  | nil => rfl
  | cons p rest ih =>
    rw [List.map_cons, List.flatMap_cons, String_join_cons,
      String_join_append, ih]

/-- The accumulation loop of `_apply_filter` is a standard filter by the
matching predicate. -/
theorem filterLoop_eq_filter (s : String) (deps : List Dep) :
    filterLoop s deps =
      deps.filter (fun dep => strOccursIn s (pyLower (depComposite dep))) := by
  induction deps with
  | nil => rfl
  | cons dep rest ih =>
    rw [filterLoop]
    by_cases h : strOccursIn s (pyLower (depComposite dep)) = true
    · rw [if_pos h, List.filter_cons, if_pos h, ih]
    · rw [if_neg h, List.filter_cons, if_neg h, ih]

/-- The accumulation loop changes nothing on a second pass with the same
filter string. -/
theorem filterLoop_idem (s : String) (deps : List Dep) :
    filterLoop s (filterLoop s deps) = filterLoop s deps := by
  induction deps with
  | nil => rfl
  | cons dep rest ih =>
    rw [filterLoop]
    by_cases h : strOccursIn s (pyLower (depComposite dep)) = true
    · rw [if_pos h, filterLoop, if_pos h, ih]
    · rw [if_neg h, ih]

/-- Unfolding: no configured substring means no filtering. -/
theorem _apply_filter_none (cfg : Config) (deps : List Dep)
    (hcfg : cfg.filter_substring = none) : _apply_filter cfg deps = deps := by
  unfold _apply_filter
  rw [hcfg]

/-- Unfolding: an empty configured substring means no filtering. -/
theorem _apply_filter_empty (cfg : Config) (deps : List Dep)
    (hcfg : cfg.filter_substring = some "") :
    _apply_filter cfg deps = deps := by
  unfold _apply_filter
  rw [hcfg]
  show (if ("" : String) = "" then deps else filterLoop (pyLower "") deps) =
    deps
  rw [if_pos rfl]

/-- Unfolding: a non-empty substring runs the accumulation loop on its
lower-cased form. -/
theorem _apply_filter_some (cfg : Config) (deps : List Dep) (s : String)
    (hcfg : cfg.filter_substring = some s) (hs : s ≠ "") :
    _apply_filter cfg deps = filterLoop (pyLower s) deps := by
  unfold _apply_filter
  rw [hcfg]
  show (if s = "" then deps else filterLoop (pyLower s) deps) = _
  rw [if_neg hs]

/-- The filter of an empty dependency list is empty for every
configuration. -/
theorem _apply_filter_nil (cfg : Config) : _apply_filter cfg [] = [] := by
  cases h : cfg.filter_substring with
  | none => exact _apply_filter_none cfg [] h
  | some s =>
    by_cases hs : s = ""
    · rw [hs] at h
      exact _apply_filter_empty cfg [] h
    · rw [_apply_filter_some cfg [] s h hs]
      rfl

/-- Claim C8: the filter is the identity on every dependency list when
the substring is absent or empty; otherwise it keeps exactly the records
whose lower-cased composite group:artifact:version string contains the
lower-cased substring, preserving the original relative order (it is a
sublist selection by that predicate); and it is idempotent. -/
theorem spec_C8_filter_contract (cfg cfg0 : Config) (deps : List Dep)
    (s : String) (hcfg : cfg.filter_substring = some s) (hs : s ≠ "")
    (h0 : cfg0.filter_substring = none ∨ cfg0.filter_substring = some "") :
    _apply_filter cfg0 deps = deps ∧
    _apply_filter cfg deps =
      deps.filter
        (fun dep => strOccursIn (pyLower s) (pyLower (depComposite dep))) ∧
    List.Sublist (_apply_filter cfg deps) deps ∧
    (∀ dep, dep ∈ _apply_filter cfg deps ↔
      dep ∈ deps ∧
        strOccursIn (pyLower s) (pyLower (depComposite dep)) = true) ∧
    _apply_filter cfg (_apply_filter cfg deps) = _apply_filter cfg deps ∧
    _apply_filter cfg0 (_apply_filter cfg0 deps) = _apply_filter cfg0 deps := by
  have hid : ∀ ds : List Dep, _apply_filter cfg0 ds = ds := by
    intro ds
    rcases h0 with h | h
    · exact _apply_filter_none cfg0 ds h
    · exact _apply_filter_empty cfg0 ds h
  have happ : _apply_filter cfg deps = filterLoop (pyLower s) deps :=
    _apply_filter_some cfg deps s hcfg hs
  have hidem : _apply_filter cfg (_apply_filter cfg deps) =
      _apply_filter cfg deps := by
    rw [happ, _apply_filter_some cfg _ s hcfg hs, filterLoop_idem]
  refine ⟨hid deps, ?_, ?_, ?_, hidem, hid _⟩
  · rw [happ, filterLoop_eq_filter]
  · rw [happ, filterLoop_eq_filter]
    exact List.filter_sublist deps
  · intro dep
    rw [happ, filterLoop_eq_filter]
    exact List.mem_filter

/-- Scenario D root configuration with the filter substring test. -/
def cfgD : Config := ⟨"a:a", 3, some "test"⟩

/-- Scenario D configuration without a filter substring. -/
def cfgD0 : Config := ⟨"a:a", 3, none⟩

/-- Scenario D dependency list: b:lib at 1.0 and c:test at 1.0. -/
def depsD : List Dep := [⟨"b", "lib", "1.0"⟩, ⟨"c", "test", "1.0"⟩]

/-- Witness for C8 at the Scenario D input. -/
theorem spec_C8_filter_contract_witness :
    cfgD.filter_substring = some "test" ∧ "test" ≠ "" ∧
    (cfgD0.filter_substring = none ∨ cfgD0.filter_substring = some "") ∧
    (_apply_filter cfgD0 depsD = depsD ∧
     _apply_filter cfgD depsD =
       depsD.filter
         (fun dep =>
           strOccursIn (pyLower "test") (pyLower (depComposite dep))) ∧
     List.Sublist (_apply_filter cfgD depsD) depsD ∧
     (∀ dep, dep ∈ _apply_filter cfgD depsD ↔
       dep ∈ depsD ∧
         strOccursIn (pyLower "test") (pyLower (depComposite dep)) = true) ∧
     _apply_filter cfgD (_apply_filter cfgD depsD) = _apply_filter cfgD depsD ∧
     _apply_filter cfgD0 (_apply_filter cfgD0 depsD) =
       _apply_filter cfgD0 depsD) :=
  ⟨rfl, by decide, Or.inl rfl,
    spec_C8_filter_contract cfgD cfgD0 depsD "test" rfl (by decide)
      (Or.inl rfl)⟩

/-- Claim C9: the diagram is the header followed by exactly one node
declaration line per graph key, in the graph's own (insertion) order,
followed by exactly one edge line per stored adjacency pair in the stored
per-node order, each duplicate occurrence emitted separately; so there
are as many node lines as keys and as many edge lines as the sum of the
stored edge-list lengths. -/
theorem spec_C9_serializer_shape (g : Graph) :
    generate_d2_diagram g =
      d2Header ++
        String.join (g.map (fun p => nodeLine p.1) ++
          g.flatMap (fun p => p.2.map (edgeLine p.1))) ∧
    (g.map (fun p => nodeLine p.1)).length = g.length ∧
    (g.flatMap (fun p => p.2.map (edgeLine p.1))).length =
      (g.map (fun p => p.2.length)).sum := by
  refine ⟨?_, List.length_map g _, ?_⟩
  · rw [generate_d2_diagram, join_edge_lines, String_join_append,
      String.append_assoc]
  · rw [List.length_flatMap]
    have hfun : (List.length ∘ fun p : Coordinate × List Dep =>
        List.map (edgeLine p.1) p.2) = fun p => p.2.length := by
      funext p
      simp
    rw [hfun]

/-- A coordinate outside the visited set is no key of a graph whose keys
are all visited. -/
theorem not_mem_keys (g : Graph) (v : List Coordinate) (c : Coordinate)
    (hg : ∀ p ∈ g, p.1 ∈ v) (hv : c ∉ v) : c ∉ g.map Prod.fst := by
  intro hc
  obtain ⟨p, hp, hpc⟩ := List.mem_map.mp hc
  exact hv (hpc ▸ hg p hp)

/-- Inserting for a coordinate keeps all keys inside the visited set
extended by that coordinate. -/
theorem dictInsert_keys_in (g : Graph) (c : Coordinate) (deps : List Dep)
    (v : List Coordinate) (hg : ∀ p ∈ g, p.1 ∈ v) :
    ∀ p ∈ dictInsert g c deps, p.1 ∈ c :: v := by
  intro p hp
  rw [dictInsert] at hp
  by_cases hc : (g.any fun p => p.1 = c) = true
  · rw [if_pos hc] at hp
    obtain ⟨p0, hp0, hfp⟩ := List.mem_map.mp hp
    by_cases hpc : p0.1 = c
    · rw [if_pos hpc] at hfp
      rw [← hfp]
      exact List.mem_cons_self _ _
    · rw [if_neg hpc] at hfp
      rw [← hfp]
      exact List.mem_cons_of_mem _ (hg p0 hp0)
  · rw [if_neg hc] at hp
    rcases List.mem_append.mp hp with h1 | h1
    · exact List.mem_cons_of_mem _ (hg p h1)
    · rw [List.mem_singleton.mp h1]
      exact List.mem_cons_self _ _

/-- Inserting a fresh key makes its lookup the inserted value. -/
theorem dictLookup_dictInsert_fresh (g : Graph) (c : Coordinate)
    (deps : List Dep) (hck : c ∉ g.map Prod.fst) :
    dictLookup (dictInsert g c deps) c = some deps := by
  rw [dictInsert_of_not_mem g c deps hck]
  exact dictLookup_append_self g c deps hck

/-- Claim C1: in every run of the builder (any root, any depth bound at
least 1, any source, any filter), each coordinate gets at most one graph
entry and is analyzed, hence fetched from the source, at most once: the
graph keys are pairwise distinct, the analysis log is pairwise distinct,
and the keys are exactly the log. -/
theorem spec_C1_at_most_once_expansion (cfg : Config) (src : Source)
    (hW : 1 ≤ cfg.max_depth) :
    ((build_dependency_graph cfg src).1.map Prod.fst).Nodup ∧
    (build_dependency_graph cfg src).2.Nodup ∧
    (build_dependency_graph cfg src).1.map Prod.fst =
      (build_dependency_graph cfg src).2 := by
  clear hW
  obtain ⟨Δ, h1, h2, h3, _h4⟩ :=
    buildLoop_delta cfg src [(cfg.package_name, 0)] [] [] [] (by simp)
  simp only [List.map_nil, List.nil_append] at h1 h2
  rw [build_dependency_graph, h1, h2]
  exact ⟨h3, h3, rfl⟩

/-- Claim C2: a coordinate first dequeued at depth maxDepth - 1 passes
the depth guard, so its full filtered dependency list is fetched and
stored as its graph entry, while nothing is enqueued for it: the loop
continues on the untouched remaining queue. -/
theorem spec_C2_depth_boundary_records_full_list (cfg : Config)
    (src : Source) (c : Coordinate) (gid aid : String) (deps : List Dep)
    (q : List (Coordinate × Nat)) (v : List Coordinate) (g : Graph)
    (l : List Coordinate) (hW : 1 ≤ cfg.max_depth) (hv : c ∉ v)
    (hsplit : pySplit ':' c = [gid, aid])
    (hsrc : src gid aid = Except.ok deps)
    (hg : ∀ p ∈ g, p.1 ∈ v) :
    get_package_dependencies cfg src c (cfg.max_depth - 1) = deps ∧
    buildLoop cfg src ((c, cfg.max_depth - 1) :: q) v g l =
      buildLoop cfg src q (c :: v)
        (dictInsert g c (_apply_filter cfg deps)) (l ++ [c]) ∧
    dictLookup (buildLoop cfg src ((c, cfg.max_depth - 1) :: q) v g l).1 c =
      some (_apply_filter cfg deps) := by
  have hget : get_package_dependencies cfg src c (cfg.max_depth - 1) =
      deps := by
    unfold get_package_dependencies
    rw [if_neg (by omega), hsplit]
    show (match src gid aid with
      | Except.ok dependencies => dependencies
      | Except.error _ => []) = deps
    rw [hsrc]
  have hstep := buildLoop_expand_stop cfg src c (cfg.max_depth - 1) q v g l
    hv (by omega)
  rw [hget] at hstep
  refine ⟨hget, hstep, ?_⟩
  rw [hstep, buildLoop_lookup_visited cfg src q (c :: v) _ _ c
    (List.mem_cons_self c v) (dictInsert_keys_in g c _ v hg)]
  exact dictLookup_dictInsert_fresh g c _ (not_mem_keys g v c hg hv)

/-- Claim C5: a dequeued unvisited coordinate whose source fetch fails is
recorded with an empty dependency list, the loop is not aborted, and it
continues on exactly the remaining queue entries. -/
theorem spec_C5_fetch_failure_is_soft (cfg : Config) (src : Source)
    (c : Coordinate) (gid aid e : String) (d : Nat)
    (q : List (Coordinate × Nat)) (v : List Coordinate) (g : Graph)
    (l : List Coordinate) (hv : c ∉ v)
    (hsplit : pySplit ':' c = [gid, aid])
    (hsrc : src gid aid = Except.error e)
    (hd : d < cfg.max_depth)
    (hg : ∀ p ∈ g, p.1 ∈ v) :
    get_package_dependencies cfg src c d = [] ∧
    buildLoop cfg src ((c, d) :: q) v g l =
      buildLoop cfg src q (c :: v) (dictInsert g c []) (l ++ [c]) ∧
    dictLookup (buildLoop cfg src ((c, d) :: q) v g l).1 c = some [] := by
  have hget : get_package_dependencies cfg src c d = [] := by
    unfold get_package_dependencies
    rw [if_neg (by omega), hsplit]
    show (match src gid aid with
      | Except.ok dependencies => dependencies
      | Except.error _ => []) = []
    rw [hsrc]
  have hlook : dictLookup (buildLoop cfg src q (c :: v)
      (dictInsert g c []) (l ++ [c])).1 c = some [] := by
    rw [buildLoop_lookup_visited cfg src q (c :: v) _ _ c
      (List.mem_cons_self c v) (dictInsert_keys_in g c [] v hg)]
    exact dictLookup_dictInsert_fresh g c [] (not_mem_keys g v c hg hv)
  by_cases hdd : d + 1 < cfg.max_depth
  · have hstep := buildLoop_expand_push cfg src c d q v g l hv hdd
    rw [hget, _apply_filter_nil] at hstep
    simp only [List.filter_nil, List.map_nil, List.append_nil] at hstep
    exact ⟨hget, hstep, by rw [hstep]; exact hlook⟩
  · have hstep := buildLoop_expand_stop cfg src c d q v g l hv hdd
    rw [hget, _apply_filter_nil] at hstep
    exact ⟨hget, hstep, by rw [hstep]; exact hlook⟩

/-- The dependency record b:b at version 1.0 of the diamond scenario. -/
def depBB : Dep := ⟨"b", "b", "1.0"⟩

/-- The dependency record c:c at version 1.0 of the diamond scenario. -/
def depCC : Dep := ⟨"c", "c", "1.0"⟩

/-- The dependency record d:d at version 1.0 of the diamond scenario. -/
def depDD : Dep := ⟨"d", "d", "1.0"⟩

/-- The diamond source: a:a depends on b:b and c:c, both of which depend
on d:d, which has no dependencies. -/
def diamondSrc : Source := fun gid aid =>
  if gid = "a" ∧ aid = "a" then Except.ok [depBB, depCC]
  else if gid = "b" ∧ aid = "b" then Except.ok [depDD]
  else if gid = "c" ∧ aid = "c" then Except.ok [depDD]
  else if gid = "d" ∧ aid = "d" then Except.ok []
  else Except.error "unknown package"

/-- Root a:a, depth bound 3, no filter (Scenario A). -/
def cfgA : Config := ⟨"a:a", 3, none⟩

/-- Root a:a, depth bound 2, no filter (Scenario C). -/
def cfgC : Config := ⟨"a:a", 2, none⟩

/-- The whole run of the builder on the diamond source with depth bound
2, step by step.  b:b and c:c are dequeued at depth 1 = maxDepth - 1:
their lists are still fetched and stored, but d:d is never enqueued. -/
theorem buildC_eval : build_dependency_graph cfgC diamondSrc =
    ([("a:a", [depBB, depCC]), ("b:b", [depDD]), ("c:c", [depDD])],
      ["a:a", "b:b", "c:c"]) := by
  calc build_dependency_graph cfgC diamondSrc
      = buildLoop cfgC diamondSrc [("a:a", 0)] [] [] [] := rfl
    _ = buildLoop cfgC diamondSrc [("b:b", 1), ("c:c", 1)] ["a:a"]
          [("a:a", [depBB, depCC])] ["a:a"] := by
        rw [buildLoop_expand_push cfgC diamondSrc "a:a" 0 [] [] [] []
          (by decide) (by decide)]
        rfl
    _ = buildLoop cfgC diamondSrc [("c:c", 1)] ["b:b", "a:a"]
          [("a:a", [depBB, depCC]), ("b:b", [depDD])] ["a:a", "b:b"] := by
        rw [buildLoop_expand_stop cfgC diamondSrc "b:b" 1 [("c:c", 1)]
          ["a:a"] [("a:a", [depBB, depCC])] ["a:a"] (by decide) (by decide)]
        rfl
    _ = buildLoop cfgC diamondSrc [] ["c:c", "b:b", "a:a"]
          [("a:a", [depBB, depCC]), ("b:b", [depDD]), ("c:c", [depDD])]
          ["a:a", "b:b", "c:c"] := by
        rw [buildLoop_expand_stop cfgC diamondSrc "c:c" 1 []
          ["b:b", "a:a"] [("a:a", [depBB, depCC]), ("b:b", [depDD])]
          ["a:a", "b:b"] (by decide) (by decide)]
        rfl
    _ = ([("a:a", [depBB, depCC]), ("b:b", [depDD]), ("c:c", [depDD])],
          ["a:a", "b:b", "c:c"]) := buildLoop_nil cfgC diamondSrc _ _ _

/-- Counterexample to C3: with the diamond source and depth bound 2, the
graph does not record b:b and c:c with empty dependency lists; b:b's
stored entry is [d:d at 1.0]. -/
theorem spec_C3_counterexample :
    dictLookup (build_dependency_graph cfgC diamondSrc).1 "b:b" ≠
      some [] ∧
    dictLookup (build_dependency_graph cfgC diamondSrc).1 "b:b" =
      some [depDD] := by
  rw [buildC_eval]
  decide

/-- Claim C3 as amended: building the diamond with depth bound 2 and no
filter yields exactly the graph mapping a:a to [b:b, c:c] and b:b, c:c
each to [d:d at 1.0], in that insertion order; d:d never becomes a graph
key (it appears only inside stored edge lists). -/
theorem spec_C3_amended_depth_boundary_graph :
    build_dependency_graph cfgC diamondSrc =
      ([("a:a", [depBB, depCC]), ("b:b", [depDD]), ("c:c", [depDD])],
        ["a:a", "b:b", "c:c"]) ∧
    "d:d" ∉ (build_dependency_graph cfgC diamondSrc).1.map Prod.fst := by
  refine ⟨buildC_eval, ?_⟩
  rw [buildC_eval]
  decide

/-- A malformed root coordinate: three colon-separated parts. -/
def cfgBad : Config := ⟨"a:b:c", 3, none⟩

/-- Counterexample to C4: the builder does not fail on a malformed root;
the root a:b:c does not parse as group:artifact, yet the build returns
normally with the root recorded as a leaf. -/
theorem spec_C4_counterexample :
    (pySplit ':' cfgBad.package_name).length ≠ 2 ∧
    build_dependency_graph cfgBad diamondSrc =
      ([("a:b:c", [])], ["a:b:c"]) := by
  constructor
  · decide
  · calc build_dependency_graph cfgBad diamondSrc
        = buildLoop cfgBad diamondSrc [("a:b:c", 0)] [] [] [] := rfl
      _ = buildLoop cfgBad diamondSrc [] ["a:b:c"] [("a:b:c", [])]
            ["a:b:c"] := by
          rw [buildLoop_expand_push cfgBad diamondSrc "a:b:c" 0 [] [] [] []
            (by decide) (by decide)]
          rfl
      _ = ([("a:b:c", [])], ["a:b:c"]) :=
          buildLoop_nil cfgBad diamondSrc _ _ _

/-- Claim C4 as amended: the builder never raises.  A root that does not
split into exactly two colon-separated parts is handled as a local,
non-fatal condition: the build returns normally with the malformed root
recorded as a leaf with an empty dependency list, for every
configuration and every source. -/
theorem spec_C4_amended_no_raise (cfg : Config) (src : Source)
    (hbad : (pySplit ':' cfg.package_name).length ≠ 2) :
    build_dependency_graph cfg src =
      ([(cfg.package_name, [])], [cfg.package_name]) := by
  have hget : get_package_dependencies cfg src cfg.package_name 0 = [] := by
    unfold get_package_dependencies
    by_cases hle : cfg.max_depth ≤ 0
    · rw [if_pos hle]
    · rw [if_neg hle]
      rcases hxs : pySplit ':' cfg.package_name with _ | ⟨x, _ | ⟨y, _ | _⟩⟩
      · rfl
      · rfl
      · rw [hxs] at hbad
        simp at hbad
      · rfl
  rw [build_dependency_graph]
  by_cases h1 : 0 + 1 < cfg.max_depth
  · rw [buildLoop_expand_push cfg src cfg.package_name 0 [] [] [] []
      (by simp) h1]
    rw [hget, _apply_filter_nil]
    simp only [List.filter_nil, List.map_nil, List.append_nil]
    rw [buildLoop_nil]
    rfl
  · rw [buildLoop_expand_stop cfg src cfg.package_name 0 [] [] [] []
      (by simp) h1]
    rw [hget, _apply_filter_nil, buildLoop_nil]
    rfl

/-- Witness for the amended C4 at the malformed root a:b:c. -/
theorem spec_C4_amended_no_raise_witness :
    (pySplit ':' cfgBad.package_name).length ≠ 2 ∧
    build_dependency_graph cfgBad diamondSrc =
      ([(cfgBad.package_name, [])], [cfgBad.package_name]) :=
  ⟨by decide, spec_C4_amended_no_raise cfgBad diamondSrc (by decide)⟩

/-- Witness for C1 on the diamond source with depth bound 3. -/
theorem spec_C1_at_most_once_expansion_witness :
    1 ≤ cfgA.max_depth ∧
    (((build_dependency_graph cfgA diamondSrc).1.map Prod.fst).Nodup ∧
      (build_dependency_graph cfgA diamondSrc).2.Nodup ∧
      (build_dependency_graph cfgA diamondSrc).1.map Prod.fst =
        (build_dependency_graph cfgA diamondSrc).2) :=
  ⟨by decide, spec_C1_at_most_once_expansion cfgA diamondSrc (by decide)⟩

/-- Witness for C2: b:b dequeued at depth 1 = maxDepth - 1 of the
depth-2 diamond build. -/
theorem spec_C2_depth_boundary_records_full_list_witness :
    1 ≤ cfgC.max_depth ∧ "b:b" ∉ ["a:a"] ∧
    pySplit ':' "b:b" = ["b", "b"] ∧
    diamondSrc "b" "b" = Except.ok [depDD] ∧
    (∀ p ∈ [("a:a", [depBB, depCC])], p.1 ∈ ["a:a"]) ∧
    (get_package_dependencies cfgC diamondSrc "b:b" (cfgC.max_depth - 1) =
        [depDD] ∧
      buildLoop cfgC diamondSrc [("b:b", cfgC.max_depth - 1), ("c:c", 1)]
          ["a:a"] [("a:a", [depBB, depCC])] ["a:a"] =
        buildLoop cfgC diamondSrc [("c:c", 1)] ["b:b", "a:a"]
          (dictInsert [("a:a", [depBB, depCC])] "b:b"
            (_apply_filter cfgC [depDD])) (["a:a"] ++ ["b:b"]) ∧
      dictLookup (buildLoop cfgC diamondSrc
          [("b:b", cfgC.max_depth - 1), ("c:c", 1)] ["a:a"]
          [("a:a", [depBB, depCC])] ["a:a"]).1 "b:b" =
        some (_apply_filter cfgC [depDD])) :=
  ⟨by decide, by decide, by decide, rfl, by decide,
    spec_C2_depth_boundary_records_full_list cfgC diamondSrc "b:b" "b" "b"
      [depDD] [("c:c", 1)] ["a:a"] [("a:a", [depBB, depCC])] ["a:a"]
      (by decide) (by decide) (by decide) rfl (by decide)⟩

/-- The record y:y at version 1.0. -/
def depYY : Dep := ⟨"y", "y", "1.0"⟩

/-- The record x:x at version 1.0. -/
def depXX : Dep := ⟨"x", "x", "1.0"⟩

/-- A source that knows only x:x and fails for everything else, standing
for a network or parse error from the repository. -/
def failSrc : Source := fun gid aid =>
  if gid = "x" ∧ aid = "x" then Except.ok [depYY]
  else Except.error "connection error"

/-- Root x:x, depth bound 3, no filter. -/
def cfgX : Config := ⟨"x:x", 3, none⟩

/-- Witness for C5: the fetch of y:y fails and y:y is recorded as a
leaf while the loop carries on. -/
theorem spec_C5_fetch_failure_is_soft_witness :
    "y:y" ∉ ["x:x"] ∧ pySplit ':' "y:y" = ["y", "y"] ∧
    failSrc "y" "y" = Except.error "connection error" ∧
    1 < cfgX.max_depth ∧
    (∀ p ∈ [("x:x", [depYY])], p.1 ∈ ["x:x"]) ∧
    (get_package_dependencies cfgX failSrc "y:y" 1 = [] ∧
      buildLoop cfgX failSrc [("y:y", 1)] ["x:x"] [("x:x", [depYY])]
          ["x:x"] =
        buildLoop cfgX failSrc [] ["y:y", "x:x"]
          (dictInsert [("x:x", [depYY])] "y:y" []) (["x:x"] ++ ["y:y"]) ∧
      dictLookup (buildLoop cfgX failSrc [("y:y", 1)] ["x:x"]
          [("x:x", [depYY])] ["x:x"]).1 "y:y" = some []) :=
  ⟨by decide, by decide, rfl, by decide, by decide,
    spec_C5_fetch_failure_is_soft cfgX failSrc "y:y" "y" "y"
      "connection error" 1 [] ["x:x"] [("x:x", [depYY])] ["x:x"]
      (by decide) (by decide) rfl (by decide) (by decide)⟩

/-- The cyclic Scenario B graph: x:x and y:y depend on each other. -/
def cyclicGraphB : Graph := [("x:x", [depYY]), ("y:y", [depXX])]

/-- The full tree render of the cyclic Scenario B graph from x:x with
depth bound 4: it reaches the back edge to x:x and stops there with the
cyclic-dependency marker, so the render of a cyclic graph is finite. -/
theorem renderB_eval : printTreeNode cyclicGraphB 4 "x:x" 0 [] =
    ["x:x", "  └── y:y", "    └── x:x (циклическая зависимость)"] := by
  have h2 : printTreeNode cyclicGraphB 4 "x:x" 2 ["y:y", "x:x"] =
      ["    └── x:x (циклическая зависимость)"] := by
    rw [printTreeNode_mem cyclicGraphB 4 "x:x" 2 ["y:y", "x:x"] (by decide)]
    decide
  have h1 : printTreeNode cyclicGraphB 4 "y:y" 1 ["x:x"] =
      ["  └── y:y", "    └── x:x (циклическая зависимость)"] := by
    rw [printTreeNode_not_mem cyclicGraphB 4 "y:y" 1 ["x:x"] (by decide)]
    rw [show ((dictLookup cyclicGraphB "y:y").getD []) = [depXX] from rfl]
    rw [printTreeChildren_cons_rec cyclicGraphB 4 1 ["y:y", "x:x"] depXX []
      (by decide)]
    rw [show depKey depXX = "x:x" from rfl, h2]
    rw [printTreeChildren_nil]
    decide
  rw [printTreeNode_not_mem cyclicGraphB 4 "x:x" 0 [] (by decide)]
  rw [show ((dictLookup cyclicGraphB "x:x").getD []) = [depYY] from rfl]
  rw [printTreeChildren_cons_rec cyclicGraphB 4 0 ["x:x"] depYY []
    (by decide)]
  rw [show depKey depYY = "y:y" from rfl, h1]
  rw [printTreeChildren_nil]
  decide

/-- Claim C6: the tree renderer is a total function, so it terminates on
every finite graph, cyclic ones included; and whenever the coordinate
about to be rendered already occurs on the current root-to-node path, it
is printed as a single terminal cyclic-dependency line and is not
recursed into. -/
theorem spec_C6_cycle_marker_terminal (g : Graph) (W : Nat)
    (package : Coordinate) (level : Nat) (visited : List Coordinate)
    (hv : package ∈ visited) :
    printTreeNode g W package level visited =
      [indentStr level ++ "└── " ++ package ++
        " (циклическая зависимость)"] :=
  printTreeNode_mem g W package level visited hv

/-- Witness for C6 at the back edge of the cyclic Scenario B graph,
together with the terminating full render of that cyclic graph. -/
theorem spec_C6_cycle_marker_terminal_witness :
    ("x:x" ∈ ["y:y", "x:x"]) ∧
    printTreeNode cyclicGraphB 4 "x:x" 2 ["y:y", "x:x"] =
      [indentStr 2 ++ "└── " ++ "x:x" ++ " (циклическая зависимость)"] ∧
    printTreeNode cyclicGraphB 4 "x:x" 0 [] =
      ["x:x", "  └── y:y", "    └── x:x (циклическая зависимость)"] :=
  ⟨by decide,
    spec_C6_cycle_marker_terminal cyclicGraphB 4 "x:x" 2 ["y:y", "x:x"]
      (by decide),
    renderB_eval⟩

/-- The Scenario A graph: the diamond as the builder stores it with
depth bound 3. -/
def gA : Graph :=
  [("a:a", [depBB, depCC]), ("b:b", [depDD]), ("c:c", [depDD]),
    ("d:d", [])]

/-- The whole run of the builder on the diamond source with depth bound
3.  Note the dequeue of the second copy of d:d (enqueued by both b:b and
c:c) being discarded as already visited. -/
theorem buildA_eval : build_dependency_graph cfgA diamondSrc =
    (gA, ["a:a", "b:b", "c:c", "d:d"]) := by
  calc build_dependency_graph cfgA diamondSrc
      = buildLoop cfgA diamondSrc [("a:a", 0)] [] [] [] := rfl
    _ = buildLoop cfgA diamondSrc [("b:b", 1), ("c:c", 1)] ["a:a"]
          [("a:a", [depBB, depCC])] ["a:a"] := by
        rw [buildLoop_expand_push cfgA diamondSrc "a:a" 0 [] [] [] []
          (by decide) (by decide)]
        rfl
    _ = buildLoop cfgA diamondSrc [("c:c", 1), ("d:d", 2)] ["b:b", "a:a"]
          [("a:a", [depBB, depCC]), ("b:b", [depDD])] ["a:a", "b:b"] := by
        rw [buildLoop_expand_push cfgA diamondSrc "b:b" 1 [("c:c", 1)]
          ["a:a"] [("a:a", [depBB, depCC])] ["a:a"] (by decide) (by decide)]
        rfl
    _ = buildLoop cfgA diamondSrc [("d:d", 2), ("d:d", 2)]
          ["c:c", "b:b", "a:a"]
          [("a:a", [depBB, depCC]), ("b:b", [depDD]), ("c:c", [depDD])]
          ["a:a", "b:b", "c:c"] := by
        rw [buildLoop_expand_push cfgA diamondSrc "c:c" 1 [("d:d", 2)]
          ["b:b", "a:a"] [("a:a", [depBB, depCC]), ("b:b", [depDD])]
          ["a:a", "b:b"] (by decide) (by decide)]
        rfl
    _ = buildLoop cfgA diamondSrc [("d:d", 2)]
          ["d:d", "c:c", "b:b", "a:a"] gA ["a:a", "b:b", "c:c", "d:d"] := by
        rw [buildLoop_expand_stop cfgA diamondSrc "d:d" 2 [("d:d", 2)]
          ["c:c", "b:b", "a:a"]
          [("a:a", [depBB, depCC]), ("b:b", [depDD]), ("c:c", [depDD])]
          ["a:a", "b:b", "c:c"] (by decide) (by decide)]
        rfl
    _ = buildLoop cfgA diamondSrc [] ["d:d", "c:c", "b:b", "a:a"] gA
          ["a:a", "b:b", "c:c", "d:d"] :=
        buildLoop_visited cfgA diamondSrc "d:d" 2 []
          ["d:d", "c:c", "b:b", "a:a"] gA ["a:a", "b:b", "c:c", "d:d"]
          (by decide)
    _ = (gA, ["a:a", "b:b", "c:c", "d:d"]) :=
        buildLoop_nil cfgA diamondSrc _ _ _

/-- Claim C7: the cycle check of the renderer is path-local.  On the
Scenario A diamond graph (the one the builder produces), d:d is reached
through the two non-overlapping paths via b:b and via c:c, is rendered
and expanded in full both times, and no line of the render carries the
cyclic-dependency marker. -/
theorem spec_C7_diamond_rendered_twice :
    (build_dependency_graph cfgA diamondSrc).1 = gA ∧
    printTreeNode gA 3 "a:a" 0 [] =
      ["a:a", "  └── b:b", "    └── d:d", "  └── c:c", "    └── d:d"] ∧
    ((printTreeNode gA 3 "a:a" 0 []).filter
      (fun line => strOccursIn "d:d" line)).length = 2 ∧
    (printTreeNode gA 3 "a:a" 0 []).filter
      (fun line => strOccursIn "циклическая" line) = [] := by
  have hdB : printTreeNode gA 3 "d:d" 2 ["b:b", "a:a"] = ["    └── d:d"] := by
    rw [printTreeNode_not_mem gA 3 "d:d" 2 ["b:b", "a:a"] (by decide)]
    rw [show ((dictLookup gA "d:d").getD []) = ([] : List Dep) from rfl]
    rw [printTreeChildren_nil]
    decide
  have hdC : printTreeNode gA 3 "d:d" 2 ["c:c", "a:a"] = ["    └── d:d"] := by
    rw [printTreeNode_not_mem gA 3 "d:d" 2 ["c:c", "a:a"] (by decide)]
    rw [show ((dictLookup gA "d:d").getD []) = ([] : List Dep) from rfl]
    rw [printTreeChildren_nil]
    decide
  have hb : printTreeNode gA 3 "b:b" 1 ["a:a"] =
      ["  └── b:b", "    └── d:d"] := by
    rw [printTreeNode_not_mem gA 3 "b:b" 1 ["a:a"] (by decide)]
    rw [show ((dictLookup gA "b:b").getD []) = [depDD] from rfl]
    rw [printTreeChildren_cons_rec gA 3 1 ["b:b", "a:a"] depDD []
      (by decide)]
    rw [show depKey depDD = "d:d" from rfl, hdB]
    rw [printTreeChildren_nil]
    decide
  have hc : printTreeNode gA 3 "c:c" 1 ["a:a"] =
      ["  └── c:c", "    └── d:d"] := by
    rw [printTreeNode_not_mem gA 3 "c:c" 1 ["a:a"] (by decide)]
    rw [show ((dictLookup gA "c:c").getD []) = [depDD] from rfl]
    rw [printTreeChildren_cons_rec gA 3 1 ["c:c", "a:a"] depDD []
      (by decide)]
    rw [show depKey depDD = "d:d" from rfl, hdC]
    rw [printTreeChildren_nil]
    decide
  have heval : printTreeNode gA 3 "a:a" 0 [] =
      ["a:a", "  └── b:b", "    └── d:d", "  └── c:c", "    └── d:d"] := by
    rw [printTreeNode_not_mem gA 3 "a:a" 0 [] (by decide)]
    rw [show ((dictLookup gA "a:a").getD []) = [depBB, depCC] from rfl]
    rw [printTreeChildren_cons_rec gA 3 0 ["a:a"] depBB [depCC]
      (by decide)]
    rw [show depKey depBB = "b:b" from rfl, hb]
    rw [printTreeChildren_cons_rec gA 3 0 ["a:a"] depCC [] (by decide)]
    rw [show depKey depCC = "c:c" from rfl, hc]
    rw [printTreeChildren_nil]
    decide
  refine ⟨by rw [buildA_eval], heval, ?_, ?_⟩
  · rw [heval]
    decide
  · rw [heval]
    decide

/-- The record h:h at version 1.0. -/
def depHH : Dep := ⟨"h", "h", "1.0"⟩

/-- The record i:i at version 1.0. -/
def depII : Dep := ⟨"i", "i", "1.0"⟩

/-- A one-node graph with the two children h:h and i:i. -/
def gG : Graph := [("g:g", [depHH, depII])]

/-- Claim C10 fails on the code: when siblings are rendered by recursion
(below the depth bound), the loop's is_last connector is computed but
never used; the recursive call always prints the last-sibling glyph for
any level above the root.  With depth bound 2, the non-last sibling h:h
and the last sibling i:i both get the same glyph.  Only at the depth
bound (bound 1), where the computed connector is actually printed, do
the glyphs differ. -/
theorem spec_C10_sibling_glyphs_not_distinct :
    printTreeNode gG 2 "g:g" 0 [] = ["g:g", "  └── h:h", "  └── i:i"] ∧
    printTreeNode gG 1 "g:g" 0 [] =
      ["g:g", "  ├── h:h (глубина ограничена)",
        "  └── i:i (глубина ограничена)"] := by
  constructor
  · have hh : printTreeNode gG 2 "h:h" 1 ["g:g"] = ["  └── h:h"] := by
      rw [printTreeNode_not_mem gG 2 "h:h" 1 ["g:g"] (by decide)]
      rw [show ((dictLookup gG "h:h").getD []) = ([] : List Dep) from rfl]
      rw [printTreeChildren_nil]
      decide
    have hi : printTreeNode gG 2 "i:i" 1 ["g:g"] = ["  └── i:i"] := by
      rw [printTreeNode_not_mem gG 2 "i:i" 1 ["g:g"] (by decide)]
      rw [show ((dictLookup gG "i:i").getD []) = ([] : List Dep) from rfl]
      rw [printTreeChildren_nil]
      decide
    rw [printTreeNode_not_mem gG 2 "g:g" 0 [] (by decide)]
    rw [show ((dictLookup gG "g:g").getD []) = [depHH, depII] from rfl]
    rw [printTreeChildren_cons_rec gG 2 0 ["g:g"] depHH [depII]
      (by decide)]
    rw [show depKey depHH = "h:h" from rfl, hh]
    rw [printTreeChildren_cons_rec gG 2 0 ["g:g"] depII [] (by decide)]
    rw [show depKey depII = "i:i" from rfl, hi]
    rw [printTreeChildren_nil]
    decide
  · rw [printTreeNode_not_mem gG 1 "g:g" 0 [] (by decide)]
    rw [show ((dictLookup gG "g:g").getD []) = [depHH, depII] from rfl]
    rw [printTreeChildren_cons_limit gG 1 0 ["g:g"] depHH [depII]
      (by decide)]
    rw [printTreeChildren_cons_limit gG 1 0 ["g:g"] depII [] (by decide)]
    rw [printTreeChildren_nil]
    decide

end DepViz
